import Mathlib

/-!
Shallow embedding of `udplogger.c` (kohsuke/udplogger): a UDP logger that
reassembles per-sender line streams, writes timestamped records to a
date-rotated log file, and reclaims memory of idle sessions.

The C globals (`clients`, `num_clients`, `try_drop_memory_usage`,
`log_fp`, `last_tm`, plus the statics `last_time`/`stamp` of
`write_logfile`) become one state structure `Sys`.  Bytes are `Char`
lists, newline is `'\n'`.  File handles are `Option Nat` (a handle id);
`fopen` is an oracle parameter `openFn`; `localtime` is an oracle
`lt : Nat → Option Tm`.
-/

namespace Udplogger

/-- A calendar time, mirroring the fields of C `struct tm` that the
program uses (`tm_year` is years since 1900, `tm_mon` is 0-based). -/
structure Tm where
  year : Nat
  mon : Nat
  mday : Nat
  hour : Nat
  min : Nat
  sec : Nat
deriving DecidableEq

/-- Sender identity: the IPv4 address octets and the port, compared
structurally like the `memcmp` over `struct sockaddr_in`. -/
structure Addr where
  a1 : Nat
  a2 : Nat
  a3 : Nat
  a4 : Nat
  port : Nat
deriving DecidableEq

/-- `struct client`: sender identity, pending buffer, precomputed
address string, and the receive time of the buffer's first byte. -/
structure Client where
  addr : Addr
  buffer : List Char
  addr_str : List Char
  stamp : Nat
deriving DecidableEq

/-- The process state: the client registry and the log-file bookkeeping
globals (`try_drop_memory_usage`, `write_logfile`'s static `last_time`
and `stamp` cache, `last_tm`, `log_fp`). -/
structure Sys where
  clients : List Client
  try_drop : Bool
  last_time : Nat
  stamp : List Char
  last_tm : Tm
  log_fp : Option Nat
deriving DecidableEq

/-- One record written to the log file: the timestamp string, the
sender prefix string, and the payload bytes, written contiguously. -/
structure Rec where
  stamp : List Char
  addr_str : List Char
  payload : List Char
deriving DecidableEq

/-- The byte stream a record contributes to the log file. -/
def Rec.render (r : Rec) : List Char :=
  r.stamp ++ r.addr_str ++ r.payload

/-- The completed-lines loop of `write_logfile` (the `memchr`/`fwrite`
while loop): repeatedly split off the prefix up to and including the
first `'\n'`; return the complete lines and the leftover bytes. -/
def extractLines : List Char → List (List Char) × List Char
  | [] => ([], [])
  | c :: rest =>
    if c = '\n' then
      let p := extractLines rest
      ([c] :: p.1, p.2)
    else
      match extractLines rest with
      | ([], _) => ([], c :: rest)
      | (l :: ls, r) => ((c :: l) :: ls, r)

/-- Lines 101-123 of `write_logfile`: emit the complete lines as
records, then (when `forced` and bytes remain) the leftover bytes with
a `'\n'` appended; return the records and the compacted buffer. -/
def writeRecs (stampStr addrStr : List Char) (buffer : List Char)
    (forced : Bool) : List Rec × List Char :=
  let p := extractLines buffer
  let recs := p.1.map (fun l => Rec.mk stampStr addrStr l)
  if forced ∧ p.2 ≠ [] then
    (recs ++ [Rec.mk stampStr addrStr (p.2 ++ ['\n'])], [])
  else
    (recs, p.2)

/-- `%0wu`: decimal digits of `n`, zero-padded on the left to width `w`
(more digits are kept when `n` is too large, like `printf`). -/
def padNum (w n : Nat) : List Char :=
  (Nat.toDigits 10 n).leftpad w '0'

/-- The `snprintf` of `write_logfile`:
`"%04u-%02u-%02u %02u:%02u:%02u "` over the `struct tm` fields,
truncated to `sizeof(stamp) - 1 = 23` characters. -/
def fmtStamp (tm : Tm) : List Char :=
  (padNum 4 (tm.year + 1900) ++ ['-'] ++ padNum 2 (tm.mon + 1) ++ ['-'] ++
    padNum 2 tm.mday ++ [' '] ++ padNum 2 tm.hour ++ [':'] ++
    padNum 2 tm.min ++ [':'] ++ padNum 2 tm.sec ++ [' ']).take 23

/-- The `snprintf` of `find_client`: `"%s:%u "` over `inet_ntoa(addr)`
and the port, truncated to `sizeof(addr_str) - 1 = 23` characters. -/
def fmtAddr (a : Addr) : List Char :=
  (Nat.toDigits 10 a.a1 ++ ['.'] ++ Nat.toDigits 10 a.a2 ++ ['.'] ++
    Nat.toDigits 10 a.a3 ++ ['.'] ++ Nat.toDigits 10 a.a4 ++ [':'] ++
    Nat.toDigits 10 a.port ++ [' ']).take 23

/-- The `snprintf` of `switch_logfile`: `"%04u-%02u-%02u.log"`,
truncated to `sizeof(filename) - 1 = 15` characters. -/
def filename (tm : Tm) : List Char :=
  (padNum 4 (tm.year + 1900) ++ ['-'] ++ padNum 2 (tm.mon + 1) ++ ['-'] ++
    padNum 2 tm.mday ++ ['.', 'l', 'o', 'g']).take 15

/-- `switch_logfile`: open today's file; on the very first open just
install the result; otherwise close the old handle on success, or keep
using the old handle on failure, and hint the memory reclaimer. -/
def switch_logfile (openFn : List Char → Option Nat) (s : Sys) (tm : Tm) :
    Sys :=
  let fp := s.log_fp
  let newfp := openFn (filename tm)
  match fp with
  | none => { s with log_fp := newfp }
  | some old =>
    match newfp with
    | some f => { s with log_fp := some f, try_drop := true }
    | none => { s with log_fp := some old, try_drop := true }

/-- Lines 81-100 of `write_logfile`: when the record's time differs
from the cached one, recompute the stamp string (falling back to
`last_tm` when `localtime` fails) and, if the calendar date changed,
record the new date in `last_tm` and switch the log file. -/
def dateCheck (lt : Nat → Option Tm) (openFn : List Char → Option Nat)
    (s : Sys) (now_time : Nat) : Sys :=
  if s.last_time = now_time then s
  else
    let tm := (lt now_time).getD s.last_tm
    let s1 := { s with stamp := fmtStamp tm }
    let s2 :=
      if tm.mday ≠ s1.last_tm.mday ∨ tm.mon ≠ s1.last_tm.mon ∨
          tm.year ≠ s1.last_tm.year then
        switch_logfile openFn { s1 with last_tm := tm } tm
      else s1
    { s2 with last_time := now_time }

/-- `write_logfile`: refresh the stamp/rotation state from the
client's receive time, then write the completed lines (and the forced
remainder), compacting the client's buffer. -/
def write_logfile (lt : Nat → Option Tm) (openFn : List Char → Option Nat)
    (s : Sys) (c : Client) (forced : Bool) : Sys × Client × List Rec :=
  let s1 := dateCheck lt openFn s c.stamp
  let p := writeRecs s1.stamp c.addr_str c.buffer forced
  (s1, { c with buffer := p.2 }, p.1)

/-- `drop_memory_usage`: a no-op unless the hint flag is set; when
set, clear the flag, drop every client whose buffer is empty, and
shrink the surviving allocations (shrinking keeps the contents, so it
is invisible at this level). -/
def drop_memory_usage (s : Sys) : Sys :=
  if s.try_drop then
    { s with clients := s.clients.filter (fun c => !c.buffer.isEmpty),
             try_drop := false }
  else s

/-- The client record `find_client` creates: zeroed buffer and stamp,
identity and its rendered prefix. -/
def newClient (a : Addr) : Client :=
  { addr := a, buffer := [], addr_str := fmtAddr a, stamp := 0 }

/-- `find_client`: linear scan by identity; on a miss, when the count
has reached `max_clients`, hint and run the reclaimer and re-test the
(unchanged) loop counter `i`, rejecting when it is still at capacity;
otherwise append a fresh zeroed client. -/
def find_client (maxc : Nat) (s : Sys) (a : Addr) : Option Nat × Sys :=
  match s.clients.findIdx? (fun c => c.addr = a) with
  | some i => (some i, s)
  | none =>
    let i := s.clients.length
    if i ≥ maxc then
      let s1 := drop_memory_usage { s with try_drop := true }
      if i ≥ maxc then (none, s1)
      else (some s1.clients.length,
            { s1 with clients := s1.clients ++ [newClient a] })
    else
      (some i, { s with clients := s.clients ++ [newClient a] })

/-- Lines 250-265 of `do_main`, after the client is found: stamp the
first byte, append the datagram, write when the chunk completed a
line, then force-write when the buffer reached `wbuf_size`. -/
def handleData (lt : Nat → Option Tm) (openFn : List Char → Option Nat)
    (wbuf : Nat) (s : Sys) (c : Client) (data : List Char) (now : Nat) :
    Sys × Client × List Rec :=
  let c1 := if c.buffer = [] then { c with stamp := now } else c
  let c2 := { c1 with buffer := c1.buffer ++ data }
  let r1 := if data.contains '\n' then write_logfile lt openFn s c2 false
            else (s, c2, [])
  let r2 := if r1.2.1.buffer.length ≥ wbuf
            then write_logfile lt openFn r1.1 r1.2.1 true
            else (r1.1, r1.2.1, [])
  (r2.1, r2.2.1, r1.2.2 ++ r2.2.2)

/-- One received datagram in `do_main`'s drain loop: look up or create
the client, then process the data; a rejected datagram has no further
effect. -/
def recvStep (lt : Nat → Option Tm) (openFn : List Char → Option Nat)
    (maxc wbuf : Nat) (s : Sys) (a : Addr) (data : List Char) (now : Nat) :
    Sys × List Rec :=
  match find_client maxc s a with
  | (none, s1) => (s1, [])
  | (some i, s1) =>
    match s1.clients.get? i with
    | none => (s1, [])
    | some c =>
      let r := handleData lt openFn wbuf s1 c data now
      ({ r.1 with clients := r.1.clients.set i r.2.1 }, r.2.2)

/-- One client of the timeout scan: force-flush it when its buffer is
non-empty and stale by at least `wait_timeout` seconds. -/
def tscanBody (lt : Nat → Option Tm) (openFn : List Char → Option Nat)
    (wt now : Nat) (acc : Sys × List Client × List Rec) (c : Client) :
    Sys × List Client × List Rec :=
  if c.buffer ≠ [] ∧ (now : Int) - (c.stamp : Int) ≥ (wt : Int) then
    let r := write_logfile lt openFn acc.1 c true
    (r.1, acc.2.1 ++ [r.2.1], acc.2.2 ++ r.2.2)
  else (acc.1, acc.2.1 ++ [c], acc.2.2)

/-- The timeout scan of `do_main` over the whole registry. -/
def tscanStep (lt : Nat → Option Tm) (openFn : List Char → Option Nat)
    (wt : Nat) (s : Sys) (now : Nat) : Sys × List Rec :=
  let res := s.clients.foldl (tscanBody lt openFn wt now) (s, [], [])
  ({ res.1 with clients := res.2.1 }, res.2.2)

/-- The externally visible events of `do_main`'s loop: a datagram
arrival, a timeout scan, and the end-of-cycle reclamation call. -/
inductive Ev where
  | dgram (a : Addr) (data : List Char) (now : Nat)
  | tscan (now : Nat)
  | reclaim
deriving DecidableEq

/-- One event step of the main loop. -/
def step (lt : Nat → Option Tm) (openFn : List Char → Option Nat)
    (maxc wbuf wt : Nat) (s : Sys) : Ev → Sys
  | .dgram a data now => (recvStep lt openFn maxc wbuf s a data now).1
  | .tscan now => (tscanStep lt openFn wt s now).1
  | .reclaim => drop_memory_usage s

/-- The state right after `do_init`: empty registry, cleared hint, the
C initializer of `last_tm` (`{ .tm_year = 70, .tm_mday = 1 }`), and
the initially opened log handle (`do_init` exits unless it opened). -/
def initSys (fp0 : Nat) : Sys :=
  { clients := [], try_drop := false, last_time := 0, stamp := [],
    last_tm := { year := 70, mon := 0, mday := 1, hour := 0, min := 0,
                 sec := 0 },
    log_fp := some fp0 }

/-- Run the main loop over a sequence of events. -/
def run (lt : Nat → Option Tm) (openFn : List Char → Option Nat)
    (maxc wbuf wt fp0 : Nat) (evs : List Ev) : Sys :=
  evs.foldl (step lt openFn maxc wbuf wt) (initSys fp0)

/-- The marker line of `flush_all_and_abort`. -/
def markerLine : List Char :=
  "[aborted due to memory allocation failure]\n".toList

/-- The loop body of `flush_all_and_abort`: force-flush one client if
its buffer is non-empty. -/
def flushStep (lt : Nat → Option Tm) (openFn : List Char → Option Nat)
    (acc : Sys × List Rec) (c : Client) : Sys × List Rec :=
  if c.buffer ≠ [] then
    let r := write_logfile lt openFn acc.1 c true
    (r.1, acc.2 ++ r.2.2)
  else acc

/-- `flush_all_and_abort`: force-flush every client with pending
data, write the marker line, flush the stream (the `Bool`), and exit
with status 1 (the `Nat`). -/
def flush_all_and_abort (lt : Nat → Option Tm)
    (openFn : List Char → Option Nat) (s : Sys) :
    Sys × List Rec × Bool × Nat :=
  let res := s.clients.foldl (flushStep lt openFn) (s, [])
  (res.1, res.2 ++ [Rec.mk [] [] markerLine], true, 1)

/-- The session buffer after `do_main` appends a chunk and
`write_logfile` (non-forced) has removed the completed lines; when
the chunk holds no newline no write happens. -/
def afterLineExtraction (pending data : List Char) : List Char :=
  if data.contains '\n' then (extractLines (pending ++ data)).2
  else pending ++ data

/-- Appending one chunk to a single session and extracting completed
lines, the non-forced path of the drain loop. -/
def feedChunk (stampStr addrStr : List Char) (st : List Rec × List Char)
    (chunk : List Char) : List Rec × List Char :=
  let b := st.2 ++ chunk
  if chunk.contains '\n' then
    let p := writeRecs stampStr addrStr b false
    (st.1 ++ p.1, p.2)
  else (st.1, b)

/-- Feeding a whole sequence of chunks to one fresh session. -/
def feedAll (stampStr addrStr : List Char) (chunks : List (List Char)) :
    List Rec × List Char :=
  chunks.foldl (feedChunk stampStr addrStr) ([], [])

-- Concrete sample data used to evaluate the model at specific inputs.

/-- A sample sender identity, 1.2.3.4:5. -/
def addr1 : Addr := ⟨1, 2, 3, 4, 5⟩

/-- A second sample sender identity, 2.2.2.2:2. -/
def addr2 : Addr := ⟨2, 2, 2, 2, 2⟩

/-- A fresh identity not present in `regAtCap`. -/
def addrNew : Addr := ⟨9, 9, 9, 9, 9⟩

/-- A `localtime` oracle that always fails. -/
def ltNone : Nat → Option Tm := fun _ => none

/-- 2024-01-31 23:59:59 as a `struct tm`. -/
def tmJan31 : Tm := ⟨124, 0, 31, 23, 59, 59⟩

/-- 2024-01-30 00:00:00 as a `struct tm`. -/
def tmJan30 : Tm := ⟨124, 0, 30, 0, 0, 0⟩

/-- A `localtime` oracle that always reports `tmJan31`. -/
def ltJan31 : Nat → Option Tm := fun _ => some tmJan31

/-- An `fopen` oracle that always fails. -/
def openNone : List Char → Option Nat := fun _ => none

/-- A state whose date marker is 2024-01-30, file handle 0 open. -/
def sysJan30 : Sys :=
  { clients := [], try_drop := false, last_time := 0, stamp := [],
    last_tm := tmJan30, log_fp := some 0 }

/-- A client holding the partial line `abc`, first byte at time 5. -/
def clientAbc : Client :=
  { addr := addr1, buffer := ['a', 'b', 'c'], addr_str := fmtAddr addr1,
    stamp := 5 }

/-- A client holding 1023 pending bytes, one below the minimum legal
`wbuf_size` of 1024. -/
def clientLong : Client :=
  { addr := addr1, buffer := List.replicate 1023 'x',
    addr_str := fmtAddr addr1, stamp := 5 }

/-- A registry filled to a capacity of 10, every buffer empty. -/
def regAtCap : Sys :=
  { clients := (List.range 10).map (fun k => newClient ⟨10, 0, 0, k, 1⟩),
    try_drop := false, last_time := 0, stamp := [], last_tm := tmJan30,
    log_fp := some 0 }

/-- A client with an empty pending buffer. -/
def cEmpty : Client := newClient addr1

/-- A client with a non-empty pending buffer. -/
def cPending : Client :=
  { addr := addr2, buffer := ['x'], addr_str := fmtAddr addr2, stamp := 0 }

/-- A registry holding one empty and one non-empty session, hint off. -/
def sysPair : Sys :=
  { clients := [cEmpty, cPending], try_drop := false, last_time := 0,
    stamp := [], last_tm := tmJan30, log_fp := some 0 }

/-- A state whose stamp cache matches its cached time 7. -/
def sysStamped : Sys :=
  { clients := [], try_drop := false, last_time := 7,
    stamp := fmtStamp tmJan31, last_tm := tmJan31, log_fp := some 0 }

/-- A client whose buffer holds the complete line `hi\n`. -/
def clientNl : Client :=
  { addr := addr1, buffer := ['h', 'i', '\n'], addr_str := fmtAddr addr1,
    stamp := 7 }

/-- The record `write_logfile` emits for `clientNl` under `sysStamped`. -/
def recHi : Rec :=
  Rec.mk (fmtStamp tmJan31) (fmtAddr addr1) ['h', 'i', '\n']

-- Basic lemmas about `extractLines`.

theorem extractLines_flatten_append (b : List Char) :
    (extractLines b).1.flatten ++ (extractLines b).2 = b := by
  induction b with
  | nil => simp [extractLines]
  | cons c rest ih =>
    by_cases h : c = '\n'
    · simp [extractLines, h] at ih ⊢
      exact ih
    · simp only [extractLines, if_neg h]
      cases hrec : extractLines rest with
      | mk ls r =>
        cases ls with
        | nil => simp
        | cons l ls' =>
          rw [hrec] at ih
          simpa using ih

theorem extractLines_length (b : List Char) :
    (extractLines b).1.length = b.count '\n' := by
  induction b with
  | nil => simp [extractLines]
  | cons c rest ih =>
    by_cases h : c = '\n'
    · subst h
      simp [extractLines, List.count_cons]
      omega
    · simp only [extractLines, if_neg h]
      cases hrec : extractLines rest with
      | mk ls r =>
        rw [hrec] at ih
        cases ls with
        | nil =>
          simp only [List.length_nil] at ih
          simp [List.count_cons, h, ← ih]
        | cons l ls' =>
          simp only [List.length_cons] at ih ⊢
          simp [List.count_cons, h, ih]

theorem extractLines_mem (b : List Char) :
    ∀ l ∈ (extractLines b).1,
      l ≠ [] ∧ l.getLast? = some '\n' ∧ l.count '\n' = 1 := by
  induction b with
  | nil => simp [extractLines]
  | cons c rest ih =>
    by_cases h : c = '\n'
    · subst h
      simp only [extractLines, if_pos rfl]
      intro l hl
      rcases List.mem_cons.mp hl with h1 | h1
      · subst h1; refine ⟨by simp, by simp, by simp⟩
      · exact ih l h1
    · simp only [extractLines, if_neg h]
      cases hrec : extractLines rest with
      | mk ls r =>
        rw [hrec] at ih
        cases ls with
        | nil => simp
        | cons l ls' =>
          intro x hx
          rcases List.mem_cons.mp hx with h1 | h1
          · subst h1
            have hl := ih l (by simp)
            obtain ⟨y, ys, rfl⟩ := List.exists_cons_of_ne_nil hl.1
            refine ⟨by simp, ?_, ?_⟩
            · rw [List.getLast?_cons_cons]
              exact hl.2.1
            · simp only [List.count_cons] at hl ⊢
              simp only [beq_iff_eq] at hl ⊢
              simp only [h, if_false, ite_false]
              simpa using hl.2.2
          · exact ih x (by simp [h1])

theorem flatten_count_of_lines (ls : List (List Char))
    (hm : ∀ l ∈ ls, l.count '\n' = 1) :
    ls.flatten.count '\n' = ls.length := by
  induction ls with
  | nil => simp
  | cons l ls ih =>
    simp only [List.flatten_cons, List.count_append, List.length_cons]
    rw [hm l (by simp), ih (fun x hx => hm x (by simp [hx]))]
    omega

theorem extractLines_flatten_count (b : List Char) :
    (extractLines b).1.flatten.count '\n' = (extractLines b).1.length :=
  flatten_count_of_lines _ (fun l hl => (extractLines_mem b l hl).2.2)

theorem extractLines_rest_no_nl (b : List Char) :
    (extractLines b).2.count '\n' = 0 := by
  have h1 := extractLines_flatten_append b
  have h2 := extractLines_length b
  have hcount : ((extractLines b).1.flatten ++ (extractLines b).2).count '\n'
      = b.count '\n' := by rw [h1]
  rw [List.count_append, extractLines_flatten_count b, h2] at hcount
  omega

theorem extractLines_no_nl (b : List Char) (h : b.count '\n' = 0) :
    extractLines b = ([], b) := by
  induction b with
  | nil => rfl
  | cons c rest ih =>
    rw [List.count_cons] at h
    have hc : ¬c = '\n' := by
      intro hc
      simp [hc] at h
    have hr : rest.count '\n' = 0 := by omega
    simp only [extractLines, if_neg hc, ih hr]

theorem extractLines_single (b r : List Char) (hb : b.count '\n' = 0)
    (hr : r.count '\n' = 0) :
    extractLines (b ++ '\n' :: r) = ([b ++ ['\n']], r) := by
  induction b with
  | nil =>
    simp [extractLines, extractLines_no_nl r hr]
  | cons c b' ih =>
    rw [List.count_cons] at hb
    have hc : ¬c = '\n' := by
      intro hc
      simp [hc] at hb
    have hb' : b'.count '\n' = 0 := by omega
    rw [List.cons_append]
    simp only [extractLines, if_neg hc, ih hb']
    simp

-- Lemmas about `writeRecs`.

theorem writeRecs_not_forced (ss as b : List Char) :
    writeRecs ss as b false
      = ((extractLines b).1.map (fun l => Rec.mk ss as l), (extractLines b).2) := by
  simp [writeRecs]

theorem writeRecs_rec_mem (ss as b : List Char) (forced : Bool) :
    ∀ r ∈ (writeRecs ss as b forced).1,
      r.stamp = ss ∧ r.addr_str = as ∧ r.payload ≠ [] ∧
        r.payload.getLast? = some '\n' ∧ r.payload.count '\n' = 1 := by
  intro r hr
  unfold writeRecs at hr
  by_cases hf : forced = true ∧ (extractLines b).2 ≠ []
  · rw [if_pos hf] at hr
    rcases List.mem_append.mp hr with h1 | h1
    · obtain ⟨l, hl, rfl⟩ := List.mem_map.mp h1
      have := extractLines_mem b l hl
      exact ⟨rfl, rfl, this.1, this.2.1, this.2.2⟩
    · have : r = Rec.mk ss as ((extractLines b).2 ++ ['\n']) := by
        simpa using h1
      subst this
      refine ⟨rfl, rfl, by simp, by simp, ?_⟩
      simp only [List.count_append]
      rw [extractLines_rest_no_nl b]
      simp
  · rw [if_neg hf] at hr
    obtain ⟨l, hl, rfl⟩ := List.mem_map.mp hr
    have := extractLines_mem b l hl
    exact ⟨rfl, rfl, this.1, this.2.1, this.2.2⟩

theorem writeRecs_payloads (ss as b : List Char) (forced : Bool) :
    (writeRecs ss as b forced).1.map Rec.payload
      = if forced ∧ (extractLines b).2 ≠ []
        then (extractLines b).1 ++ [(extractLines b).2 ++ ['\n']]
        else (extractLines b).1 := by
  unfold writeRecs
  dsimp only
  have hfun : (Rec.payload ∘ fun l : List Char => Rec.mk ss as l) = id := rfl
  split
  next hc => simp [hfun]
  next hc => simp [hfun]

theorem writeRecs_forced_payloads (ss as b : List Char) :
    ((writeRecs ss as b true).1.map Rec.payload).flatten
      = if (extractLines b).2 = [] then b else b ++ ['\n'] := by
  rw [writeRecs_payloads]
  have hfa := extractLines_flatten_append b
  by_cases h : (extractLines b).2 = []
  · rw [if_neg (by simp [h]), if_pos h]
    rw [h, List.append_nil] at hfa
    exact hfa
  · rw [if_pos ⟨rfl, h⟩, if_neg h]
    rw [List.flatten_append]
    simp only [List.flatten_cons, List.flatten_nil, List.append_nil]
    rw [← List.append_assoc, hfa]

-- Field-preservation lemmas for the log bookkeeping functions.

theorem switch_logfile_clients (o : List Char → Option Nat) (s : Sys) (tm : Tm) :
    (switch_logfile o s tm).clients = s.clients := by
  unfold switch_logfile
  dsimp only
  split
  · rfl
  · split <;> rfl

theorem switch_logfile_stamp (o : List Char → Option Nat) (s : Sys) (tm : Tm) :
    (switch_logfile o s tm).stamp = s.stamp := by
  unfold switch_logfile
  dsimp only
  split
  · rfl
  · split <;> rfl

theorem switch_logfile_last_tm (o : List Char → Option Nat) (s : Sys) (tm : Tm) :
    (switch_logfile o s tm).last_tm = s.last_tm := by
  unfold switch_logfile
  dsimp only
  split
  · rfl
  · split <;> rfl

theorem dateCheck_clients (lt : Nat → Option Tm) (o : List Char → Option Nat)
    (s : Sys) (t : Nat) : (dateCheck lt o s t).clients = s.clients := by
  unfold dateCheck
  by_cases h : s.last_time = t
  · rw [if_pos h]
  · rw [if_neg h]
    dsimp only
    split
    · rw [switch_logfile_clients]
    · rfl

theorem write_logfile_clients (lt : Nat → Option Tm)
    (o : List Char → Option Nat) (s : Sys) (c : Client) (forced : Bool) :
    (write_logfile lt o s c forced).1.clients = s.clients := by
  unfold write_logfile
  exact dateCheck_clients lt o s c.stamp

theorem write_logfile_client_addr (lt : Nat → Option Tm)
    (o : List Char → Option Nat) (s : Sys) (c : Client) (forced : Bool) :
    (write_logfile lt o s c forced).2.1.addr = c.addr := rfl

theorem write_logfile_client_addr_str (lt : Nat → Option Tm)
    (o : List Char → Option Nat) (s : Sys) (c : Client) (forced : Bool) :
    (write_logfile lt o s c forced).2.1.addr_str = c.addr_str := rfl

theorem dateCheck_stamp_shape (lt : Nat → Option Tm)
    (o : List Char → Option Nat) (s : Sys) (t : Nat)
    (h : ∃ tm0, s.stamp = fmtStamp tm0) :
    ∃ tm, (dateCheck lt o s t).stamp = fmtStamp tm := by
  unfold dateCheck
  by_cases he : s.last_time = t
  · rw [if_pos he]; exact h
  · rw [if_neg he]
    dsimp only
    split
    · refine ⟨(lt t).getD s.last_tm, ?_⟩
      rw [switch_logfile_stamp]
    · refine ⟨(lt t).getD s.last_tm, ?_⟩
      with_reducible rfl

-- The single-session feed: invariants of the chunk fold.

theorem contains_false_count (ch : List Char) (h : ch.contains '\n' = false) :
    ch.count '\n' = 0 := by
  rw [List.count_eq_zero]
  intro hmem
  simp [hmem] at h

theorem feedChunk_props (ss as : List Char) (acc : List Rec × List Char)
    (ch : List Char) (hnl : acc.2.count '\n' = 0) :
    ((feedChunk ss as acc ch).1.map Rec.payload).flatten
        ++ (feedChunk ss as acc ch).2
      = (acc.1.map Rec.payload).flatten ++ acc.2 ++ ch
    ∧ (feedChunk ss as acc ch).2.count '\n' = 0
    ∧ (feedChunk ss as acc ch).1.length = acc.1.length + ch.count '\n'
    ∧ ∀ r ∈ (feedChunk ss as acc ch).1,
        r ∈ acc.1 ∨ (r.payload ≠ [] ∧ r.payload.getLast? = some '\n' ∧
                     r.payload.count '\n' = 1) := by
  unfold feedChunk
  dsimp only
  by_cases hc : ch.contains '\n'
  · rw [if_pos hc]
    dsimp only
    refine ⟨?_, ?_, ?_, ?_⟩
    · rw [writeRecs_not_forced]
      dsimp only
      rw [List.map_append, List.flatten_append, List.map_map]
      have hfun : (Rec.payload ∘ fun l : List Char => Rec.mk ss as l) = id := rfl
      rw [hfun, List.map_id, List.append_assoc,
        extractLines_flatten_append (acc.2 ++ ch), List.append_assoc]
    · rw [writeRecs_not_forced]
      exact extractLines_rest_no_nl (acc.2 ++ ch)
    · rw [writeRecs_not_forced]
      dsimp only
      rw [List.length_append, List.length_map,
        extractLines_length (acc.2 ++ ch), List.count_append, hnl]
      omega
    · intro r hr
      rcases List.mem_append.mp hr with h1 | h1
      · exact Or.inl h1
      · have := writeRecs_rec_mem ss as (acc.2 ++ ch) false r h1
        exact Or.inr ⟨this.2.2.1, this.2.2.2.1, this.2.2.2.2⟩
  · rw [if_neg hc]
    have hch : ch.count '\n' = 0 :=
      contains_false_count ch (by simpa using hc)
    refine ⟨by rw [List.append_assoc], ?_, by simp [hch], fun r hr => Or.inl hr⟩
    rw [List.count_append, hnl, hch]

theorem feed_fold_props (ss as : List Char) (chunks : List (List Char))
    (acc : List Rec × List Char) (hnl : acc.2.count '\n' = 0) :
    (((chunks.foldl (feedChunk ss as) acc).1.map Rec.payload).flatten
        ++ (chunks.foldl (feedChunk ss as) acc).2
      = (acc.1.map Rec.payload).flatten ++ acc.2 ++ chunks.flatten)
    ∧ (chunks.foldl (feedChunk ss as) acc).2.count '\n' = 0
    ∧ (chunks.foldl (feedChunk ss as) acc).1.length
        = acc.1.length + chunks.flatten.count '\n'
    ∧ ∀ r ∈ (chunks.foldl (feedChunk ss as) acc).1,
        r ∈ acc.1 ∨ (r.payload ≠ [] ∧ r.payload.getLast? = some '\n' ∧
                     r.payload.count '\n' = 1) := by
  induction chunks generalizing acc with
  | nil => exact ⟨by simp, hnl, by simp, fun r hr => Or.inl hr⟩
  | cons ch chs ih =>
    rw [List.foldl_cons]
    have h1 := feedChunk_props ss as acc ch hnl
    have h2 := ih (feedChunk ss as acc ch) h1.2.1
    refine ⟨?_, h2.2.1, ?_, ?_⟩
    · rw [h2.1, h1.1, List.flatten_cons, ← List.append_assoc]
    · rw [h2.2.2.1, h1.2.2.1, List.flatten_cons, List.count_append]
      omega
    · intro r hr
      rcases h2.2.2.2 r hr with h3 | h3
      · rcases h1.2.2.2 r h3 with h4 | h4
        · exact Or.inl h4
        · exact Or.inr h4
      · exact Or.inr h3

-- Registry lemmas: `find_client`, `drop_memory_usage`, the loop steps.

theorem find_client_found (maxc : Nat) (s : Sys) (a : Addr) (i : Nat)
    (h : s.clients.findIdx? (fun c => c.addr = a) = some i) :
    find_client maxc s a = (some i, s) := by
  unfold find_client
  rw [h]

theorem find_client_at_capacity (maxc : Nat) (s : Sys) (a : Addr)
    (hnone : s.clients.findIdx? (fun c => c.addr = a) = none)
    (hcap : s.clients.length ≥ maxc) :
    find_client maxc s a
      = (none, drop_memory_usage { s with try_drop := true }) := by
  unfold find_client
  rw [hnone]
  dsimp only
  rw [if_pos hcap, if_pos hcap]

theorem find_client_create (maxc : Nat) (s : Sys) (a : Addr)
    (hnone : s.clients.findIdx? (fun c => c.addr = a) = none)
    (hlt : s.clients.length < maxc) :
    find_client maxc s a
      = (some s.clients.length,
         { s with clients := s.clients ++ [newClient a] }) := by
  unfold find_client
  rw [hnone]
  dsimp only
  rw [if_neg (by omega)]

theorem drop_clients_sublist (s : Sys) :
    (drop_memory_usage s).clients.Sublist s.clients := by
  unfold drop_memory_usage
  split
  · exact List.filter_sublist _
  · exact List.Sublist.refl _

theorem drop_length_le (s : Sys) :
    (drop_memory_usage s).clients.length ≤ s.clients.length :=
  (drop_clients_sublist s).length_le

theorem findIdx?_none_addr (l : List Client) (a : Addr)
    (h : l.findIdx? (fun c => c.addr = a) = none) :
    a ∉ l.map Client.addr := by
  intro hmem
  obtain ⟨c, hc, hca⟩ := List.mem_map.mp hmem
  have := List.findIdx?_eq_none_iff.mp h c hc
  simp [hca] at this

theorem findIdx?_ne_none_of_mem (l : List Client) (a : Addr)
    (h : ∃ c ∈ l, c.addr = a) :
    l.findIdx? (fun c => c.addr = a) ≠ none := by
  intro hn
  obtain ⟨c, hc, hca⟩ := h
  have := List.findIdx?_eq_none_iff.mp hn c hc
  simp [hca] at this

theorem find_client_length (maxc : Nat) (s : Sys) (a : Addr)
    (h : s.clients.length ≤ maxc) :
    (find_client maxc s a).2.clients.length ≤ maxc := by
  cases hf : s.clients.findIdx? (fun c => c.addr = a) with
  | some i => rw [find_client_found maxc s a i hf]; exact h
  | none =>
    by_cases hcap : s.clients.length ≥ maxc
    · rw [find_client_at_capacity maxc s a hf hcap]
      exact le_trans (drop_length_le _) h
    · rw [find_client_create maxc s a hf (by omega)]
      simp only [List.length_append, List.length_singleton]
      omega

theorem find_client_nodup (maxc : Nat) (s : Sys) (a : Addr)
    (h : (s.clients.map Client.addr).Nodup) :
    ((find_client maxc s a).2.clients.map Client.addr).Nodup := by
  cases hf : s.clients.findIdx? (fun c => c.addr = a) with
  | some i => rw [find_client_found maxc s a i hf]; exact h
  | none =>
    have hno : a ∉ s.clients.map Client.addr := findIdx?_none_addr s.clients a hf
    by_cases hcap : s.clients.length ≥ maxc
    · rw [find_client_at_capacity maxc s a hf hcap]
      exact h.sublist ((drop_clients_sublist _).map Client.addr)
    · rw [find_client_create maxc s a hf (by omega)]
      dsimp only
      rw [List.map_append]
      rw [List.nodup_append]
      refine ⟨h, by simp, ?_⟩
      intro x hx hx2
      simp only [List.map_cons, List.map_nil, List.mem_singleton] at hx2
      subst hx2
      exact hno hx

theorem map_addr_set (l : List Client) (i : Nat) (c c' : Client)
    (hg : l.get? i = some c) (ha : c'.addr = c.addr) :
    (l.set i c').map Client.addr = l.map Client.addr := by
  induction l generalizing i with
  | nil => simp at hg
  | cons x xs ih =>
    cases i with
    | zero =>
      simp only [List.get?] at hg
      cases hg
      simp [List.set, ha]
    | succ n =>
      simp only [List.get?] at hg
      simp only [List.set, List.map_cons]
      rw [ih n hg]

theorem handleData_clients (lt : Nat → Option Tm)
    (o : List Char → Option Nat) (wbuf : Nat) (s : Sys) (c : Client)
    (data : List Char) (now : Nat) :
    (handleData lt o wbuf s c data now).1.clients = s.clients := by
  unfold handleData
  dsimp only
  generalize h1 : (if data.contains '\n'
      then write_logfile lt o s
        { (if c.buffer = [] then { c with stamp := now } else c) with
          buffer := (if c.buffer = [] then { c with stamp := now } else c).buffer
            ++ data } false
      else (s, { (if c.buffer = [] then { c with stamp := now } else c) with
          buffer := (if c.buffer = [] then { c with stamp := now } else c).buffer
            ++ data }, [])) = r1
  have hr1 : r1.1.clients = s.clients := by
    rw [← h1]
    split
    · exact write_logfile_clients ..
    · rfl
  split
  · rw [write_logfile_clients]; exact hr1
  · exact hr1

theorem handleData_addr (lt : Nat → Option Tm)
    (o : List Char → Option Nat) (wbuf : Nat) (s : Sys) (c : Client)
    (data : List Char) (now : Nat) :
    (handleData lt o wbuf s c data now).2.1.addr = c.addr := by
  unfold handleData
  dsimp only
  generalize h1 : (if data.contains '\n'
      then write_logfile lt o s
        { (if c.buffer = [] then { c with stamp := now } else c) with
          buffer := (if c.buffer = [] then { c with stamp := now } else c).buffer
            ++ data } false
      else (s, { (if c.buffer = [] then { c with stamp := now } else c) with
          buffer := (if c.buffer = [] then { c with stamp := now } else c).buffer
            ++ data }, [])) = r1
  have hr1 : r1.2.1.addr = c.addr := by
    rw [← h1]
    split
    · rw [write_logfile_client_addr]
      split <;> rfl
    · dsimp only
      split <;> rfl
  split
  · rw [write_logfile_client_addr]; exact hr1
  · exact hr1

theorem recvStep_length (lt : Nat → Option Tm)
    (o : List Char → Option Nat) (maxc wbuf : Nat) (s : Sys) (a : Addr)
    (data : List Char) (now : Nat) (h : s.clients.length ≤ maxc) :
    (recvStep lt o maxc wbuf s a data now).1.clients.length ≤ maxc := by
  unfold recvStep
  have hfc := find_client_length maxc s a h
  cases hf : find_client maxc s a with
  | mk oi s1 =>
    rw [hf] at hfc
    cases oi with
    | none => exact hfc
    | some i =>
      dsimp only
      cases hg : s1.clients.get? i with
      | none => exact hfc
      | some c =>
        dsimp only
        rw [List.length_set, handleData_clients]
        exact hfc

theorem recvStep_nodup (lt : Nat → Option Tm)
    (o : List Char → Option Nat) (maxc wbuf : Nat) (s : Sys) (a : Addr)
    (data : List Char) (now : Nat)
    (h : (s.clients.map Client.addr).Nodup) :
    ((recvStep lt o maxc wbuf s a data now).1.clients.map Client.addr).Nodup := by
  unfold recvStep
  have hfc := find_client_nodup maxc s a h
  cases hf : find_client maxc s a with
  | mk oi s1 =>
    rw [hf] at hfc
    cases oi with
    | none => exact hfc
    | some i =>
      dsimp only
      cases hg : s1.clients.get? i with
      | none => exact hfc
      | some c =>
        dsimp only
        rw [handleData_clients]
        rw [map_addr_set s1.clients i c _ hg (handleData_addr ..)]
        exact hfc

theorem tscan_fold_map (lt : Nat → Option Tm)
    (o : List Char → Option Nat) (wt now : Nat) (cs : List Client)
    (s0 : Sys) (accc : List Client) (accr : List Rec) :
    (cs.foldl (tscanBody lt o wt now) (s0, accc, accr)).2.1.map Client.addr
      = accc.map Client.addr ++ cs.map Client.addr := by
  induction cs generalizing s0 accc accr with
  | nil => simp
  | cons c cs ih =>
    rw [List.foldl_cons]
    by_cases hc : c.buffer ≠ [] ∧ (now : Int) - (c.stamp : Int) ≥ (wt : Int)
    · have he : tscanBody lt o wt now (s0, accc, accr) c
          = ((write_logfile lt o s0 c true).1,
             accc ++ [(write_logfile lt o s0 c true).2.1],
             accr ++ (write_logfile lt o s0 c true).2.2) := by
        unfold tscanBody
        rw [if_pos hc]
      rw [he, ih]
      simp [write_logfile_client_addr]
    · have he : tscanBody lt o wt now (s0, accc, accr) c
          = (s0, accc ++ [c], accr) := by
        unfold tscanBody
        rw [if_neg hc]
      rw [he, ih]
      simp

theorem tscanStep_map (lt : Nat → Option Tm)
    (o : List Char → Option Nat) (wt : Nat) (s : Sys) (now : Nat) :
    (tscanStep lt o wt s now).1.clients.map Client.addr
      = s.clients.map Client.addr := by
  unfold tscanStep
  dsimp only
  rw [tscan_fold_map]
  simp

theorem tscanStep_length (lt : Nat → Option Tm)
    (o : List Char → Option Nat) (wt : Nat) (s : Sys) (now : Nat) :
    (tscanStep lt o wt s now).1.clients.length = s.clients.length := by
  have := congrArg List.length (tscanStep_map lt o wt s now)
  simpa using this

theorem step_length (lt : Nat → Option Tm) (o : List Char → Option Nat)
    (maxc wbuf wt : Nat) (s : Sys) (e : Ev)
    (h : s.clients.length ≤ maxc) :
    (step lt o maxc wbuf wt s e).clients.length ≤ maxc := by
  cases e with
  | dgram a data now => exact recvStep_length lt o maxc wbuf s a data now h
  | tscan now => rw [step, tscanStep_length]; exact h
  | reclaim => exact le_trans (drop_length_le s) h

theorem step_nodup (lt : Nat → Option Tm) (o : List Char → Option Nat)
    (maxc wbuf wt : Nat) (s : Sys) (e : Ev)
    (h : (s.clients.map Client.addr).Nodup) :
    ((step lt o maxc wbuf wt s e).clients.map Client.addr).Nodup := by
  cases e with
  | dgram a data now => exact recvStep_nodup lt o maxc wbuf s a data now h
  | tscan now => rw [step, tscanStep_map]; exact h
  | reclaim => exact h.sublist ((drop_clients_sublist s).map Client.addr)

theorem foldl_step_length (lt : Nat → Option Tm)
    (o : List Char → Option Nat) (maxc wbuf wt : Nat) (evs : List Ev)
    (s : Sys) (h : s.clients.length ≤ maxc) :
    (evs.foldl (step lt o maxc wbuf wt) s).clients.length ≤ maxc := by
  induction evs generalizing s with
  | nil => exact h
  | cons e evs ih =>
    rw [List.foldl_cons]
    exact ih _ (step_length lt o maxc wbuf wt s e h)

theorem foldl_step_nodup (lt : Nat → Option Tm)
    (o : List Char → Option Nat) (maxc wbuf wt : Nat) (evs : List Ev)
    (s : Sys) (h : (s.clients.map Client.addr).Nodup) :
    (((evs.foldl (step lt o maxc wbuf wt) s).clients.map Client.addr)).Nodup := by
  induction evs generalizing s with
  | nil => exact h
  | cons e evs ih =>
    rw [List.foldl_cons]
    exact ih _ (step_nodup lt o maxc wbuf wt s e h)

-- More `writeRecs` and `write_logfile` facts.

theorem writeRecs_forced_buffer (ss as b : List Char) :
    (writeRecs ss as b true).2 = [] := by
  unfold writeRecs
  dsimp only
  split
  · rfl
  next hcond =>
    by_contra hne
    exact hcond ⟨rfl, hne⟩

theorem writeRecs_forced_getLast (ss as b : List Char)
    (h : (extractLines b).2 ≠ []) :
    (writeRecs ss as b true).1.getLast?
      = some (Rec.mk ss as ((extractLines b).2 ++ ['\n'])) := by
  unfold writeRecs
  dsimp only
  rw [if_pos ⟨rfl, h⟩]
  dsimp only
  rw [List.getLast?_concat]

theorem write_logfile_recs (lt : Nat → Option Tm)
    (o : List Char → Option Nat) (s : Sys) (c : Client) (forced : Bool) :
    (write_logfile lt o s c forced).2.2
      = (writeRecs (dateCheck lt o s c.stamp).stamp c.addr_str c.buffer
          forced).1 := rfl

theorem write_logfile_sys (lt : Nat → Option Tm)
    (o : List Char → Option Nat) (s : Sys) (c : Client) (forced : Bool) :
    (write_logfile lt o s c forced).1 = dateCheck lt o s c.stamp := rfl

theorem write_logfile_buffer (lt : Nat → Option Tm)
    (o : List Char → Option Nat) (s : Sys) (c : Client) (forced : Bool) :
    (write_logfile lt o s c forced).2.1.buffer
      = (writeRecs (dateCheck lt o s c.stamp).stamp c.addr_str c.buffer
          forced).2 := rfl

-- The `flush_all_and_abort` fold: payload preservation.

theorem flush_fold_payloads (lt : Nat → Option Tm)
    (o : List Char → Option Nat) (cs : List Client) (s0 : Sys)
    (acc : List Rec) :
    ((cs.foldl (flushStep lt o) (s0, acc)).2.map Rec.payload).flatten
      = (acc.map Rec.payload).flatten
        ++ (cs.filter (fun c => !c.buffer.isEmpty)).flatMap
            (fun c => if (extractLines c.buffer).2 = [] then c.buffer
                      else c.buffer ++ ['\n']) := by
  induction cs generalizing s0 acc with
  | nil => simp
  | cons c cs ih =>
    rw [List.foldl_cons]
    by_cases hc : c.buffer ≠ []
    · have he : flushStep lt o (s0, acc) c
          = ((write_logfile lt o s0 c true).1,
             acc ++ (write_logfile lt o s0 c true).2.2) := by
        unfold flushStep
        rw [if_pos hc]
      have hkeep : (c :: cs).filter (fun c => !c.buffer.isEmpty)
          = c :: cs.filter (fun c => !c.buffer.isEmpty) := by
        rw [List.filter_cons]
        rw [if_pos (by simpa using hc)]
      rw [he, ih, hkeep, List.flatMap_cons]
      rw [List.map_append, List.flatten_append]
      rw [write_logfile_recs, writeRecs_forced_payloads]
      rw [List.append_assoc]
    · have he : flushStep lt o (s0, acc) c = (s0, acc) := by
        unfold flushStep
        rw [if_neg hc]
      have hdrop : (c :: cs).filter (fun c => !c.buffer.isEmpty)
          = cs.filter (fun c => !c.buffer.isEmpty) := by
        rw [List.filter_cons]
        rw [if_neg (by simpa using hc)]
      rw [he, ih, hdrop]

-- Rotation lemmas for the date-change path.

theorem dateCheck_same_date (lt : Nat → Option Tm)
    (o2 : List Char → Option Nat) (s : Sys) (t2 : Nat) (tm2 : Tm)
    (hlt2 : lt t2 = some tm2)
    (h1 : tm2.mday = s.last_tm.mday) (h2 : tm2.mon = s.last_tm.mon)
    (h3 : tm2.year = s.last_tm.year) :
    (dateCheck lt o2 s t2).log_fp = s.log_fp
    ∧ (dateCheck lt o2 s t2).last_tm = s.last_tm := by
  unfold dateCheck
  by_cases he : s.last_time = t2
  · rw [if_pos he]
    exact ⟨rfl, rfl⟩
  · rw [if_neg he]
    dsimp only
    rw [hlt2]
    dsimp only [Option.getD]
    rw [if_neg (by simp [h1, h2, h3])]
    exact ⟨rfl, rfl⟩

theorem dateCheck_rot_fail (lt : Nat → Option Tm)
    (o : List Char → Option Nat) (s : Sys) (t : Nat) (tm : Tm) (hh : Nat)
    (hfp : s.log_fp = some hh) (hlt : lt t = some tm)
    (hne : s.last_time ≠ t)
    (hdate : tm.mday ≠ s.last_tm.mday ∨ tm.mon ≠ s.last_tm.mon ∨
             tm.year ≠ s.last_tm.year)
    (hopen : o (filename tm) = none) :
    (dateCheck lt o s t).log_fp = some hh
    ∧ (dateCheck lt o s t).last_tm = tm
    ∧ (dateCheck lt o s t).last_time = t := by
  unfold dateCheck
  rw [if_neg hne]
  dsimp only
  rw [hlt]
  dsimp only [Option.getD]
  rw [if_pos hdate]
  unfold switch_logfile
  dsimp only
  rw [hfp, hopen]
  exact ⟨rfl, rfl, rfl⟩

theorem handleData_not_forced (lt : Nat → Option Tm)
    (o : List Char → Option Nat) (wbuf : Nat) (s : Sys) (c : Client)
    (data : List Char) (now : Nat)
    (h : (afterLineExtraction c.buffer data).length < wbuf) :
    (handleData lt o wbuf s c data now).2.1.buffer
      = afterLineExtraction c.buffer data := by
  have hc1 : (if c.buffer = [] then { c with stamp := now } else c).buffer
      = c.buffer := by split <;> rfl
  unfold handleData
  dsimp only
  generalize h1 : (if data.contains '\n'
      then write_logfile lt o s
        { (if c.buffer = [] then { c with stamp := now } else c) with
          buffer := (if c.buffer = [] then { c with stamp := now } else c).buffer
            ++ data } false
      else (s, { (if c.buffer = [] then { c with stamp := now } else c) with
          buffer := (if c.buffer = [] then { c with stamp := now } else c).buffer
            ++ data }, [])) = r1
  have hbuf : r1.2.1.buffer = afterLineExtraction c.buffer data := by
    rw [← h1]
    unfold afterLineExtraction
    by_cases hc : data.contains '\n'
    · rw [if_pos hc, if_pos hc]
      rw [write_logfile_buffer, writeRecs_not_forced]
      dsimp only
      rw [hc1]
    · rw [if_neg hc, if_neg hc]
      dsimp only
      rw [hc1]
  rw [if_neg (by rw [hbuf]; omega)]
  exact hbuf

-- Claim theorems.

/-- C1: for any sequence of chunks appended to a single session whose
concatenation contains exactly k newlines, the line-extraction step of
`write_logfile` emits exactly k complete lines (each ending in its
newline), their payloads concatenate to the prefix of the input up to
and including the k-th newline, and the remaining bytes (newline-free)
stay at the front of the pending buffer. -/
theorem c1_line_extraction (ss as : List Char) (chunks : List (List Char)) :
    (feedAll ss as chunks).1.length = chunks.flatten.count '\n'
    ∧ ((feedAll ss as chunks).1.map Rec.payload).flatten
        ++ (feedAll ss as chunks).2 = chunks.flatten
    ∧ (feedAll ss as chunks).2.count '\n' = 0
    ∧ ∀ r ∈ (feedAll ss as chunks).1,
        r.payload ≠ [] ∧ r.payload.getLast? = some '\n'
          ∧ r.payload.count '\n' = 1 := by
  have h := feed_fold_props ss as chunks ([], []) (by simp)
  unfold feedAll
  refine ⟨by simpa using h.2.2.1, by simpa using h.1, h.2.1, ?_⟩
  intro r hr
  rcases h.2.2.2 r hr with h1 | h1
  · simp at h1
  · exact h1

/-- C2: at capacity, `find_client` reclaims but then re-tests the stale
loop counter, so the newcomer is rejected even though reclamation
emptied the registry (returned count 0 < 10), contradicting the claim
that the new session is admitted when reclamation makes room. -/
theorem c2_stale_recheck :
    (find_client 10 regAtCap addrNew).1 = none
    ∧ (find_client 10 regAtCap addrNew).2.clients.length = 0 := by decide

/-- C6: `flush_all_and_abort` force-flushes every session with pending
data (their bytes appear in order, a newline appended exactly when the
remainder lacked one), writes the marker line last, flushes the stream
unconditionally, and exits with a non-zero status. -/
theorem c6_abort_flush (lt : Nat → Option Tm)
    (o : List Char → Option Nat) (s : Sys) :
    (flush_all_and_abort lt o s).2.2.2 ≠ 0
    ∧ (flush_all_and_abort lt o s).2.2.1 = true
    ∧ (flush_all_and_abort lt o s).2.1.getLast?
        = some (Rec.mk [] [] markerLine)
    ∧ ((flush_all_and_abort lt o s).2.1.dropLast.map Rec.payload).flatten
        = (s.clients.filter (fun c => !c.buffer.isEmpty)).flatMap
            (fun c => if (extractLines c.buffer).2 = [] then c.buffer
                      else c.buffer ++ ['\n']) := by
  refine ⟨by simp [flush_all_and_abort], rfl, ?_, ?_⟩
  · unfold flush_all_and_abort
    dsimp only
    rw [List.getLast?_concat]
  · unfold flush_all_and_abort
    dsimp only
    rw [List.dropLast_concat]
    have h := flush_fold_payloads lt o s.clients s []
    simpa using h

/-- C7: in every state reachable from startup by datagram arrivals,
timeout scans and reclamation passes, the registry never holds more
than `max_clients` sessions. -/
theorem c7_capacity_invariant (lt : Nat → Option Tm)
    (o : List Char → Option Nat) (maxc wbuf wt fp0 : Nat) (evs : List Ev) :
    (run lt o maxc wbuf wt fp0 evs).clients.length ≤ maxc :=
  foldl_step_length lt o maxc wbuf wt evs (initSys fp0)
    (by simp [initSys])

/-- C9: `drop_memory_usage` is idempotent; the second of two
back-to-back calls changes nothing (the first clears the hint flag, so
the second returns immediately). -/
theorem c9_reclaim_idempotent (s : Sys) :
    drop_memory_usage (drop_memory_usage s) = drop_memory_usage s := by
  by_cases h : s.try_drop = true
  · have h1 : drop_memory_usage s
        = { s with clients := s.clients.filter (fun c => !c.buffer.isEmpty),
                   try_drop := false } := by
      unfold drop_memory_usage
      rw [if_pos h]
    rw [h1]
    unfold drop_memory_usage
    rw [if_neg (by simp)]
  · have h1 : drop_memory_usage s = s := by
      unfold drop_memory_usage
      rw [if_neg h]
    rw [h1, h1]

/-- C10: every reachable registry holds at most one session per sender
identity, and `find_client` on an already-registered identity returns
the existing session without changing the registry. -/
theorem c10_unique_identity (lt : Nat → Option Tm)
    (o : List Char → Option Nat) (maxc wbuf wt fp0 maxc2 : Nat)
    (evs : List Ev) (a : Addr) :
    ((run lt o maxc wbuf wt fp0 evs).clients.map Client.addr).Nodup
    ∧ ((∃ c ∈ (run lt o maxc wbuf wt fp0 evs).clients, c.addr = a) →
        (find_client maxc2 (run lt o maxc wbuf wt fp0 evs) a).2
            = run lt o maxc wbuf wt fp0 evs
        ∧ (find_client maxc2 (run lt o maxc wbuf wt fp0 evs) a).1.isSome) := by
  refine ⟨foldl_step_nodup lt o maxc wbuf wt evs (initSys fp0)
    (by simp [initSys]), ?_⟩
  intro hex
  cases hf : (run lt o maxc wbuf wt fp0 evs).clients.findIdx?
      (fun c => c.addr = a) with
  | none => exact absurd hf (findIdx?_ne_none_of_mem _ a hex)
  | some i =>
    rw [find_client_found maxc2 _ a i hf]
    exact ⟨rfl, rfl⟩

/-- Witness for C10 at a concrete run with one datagram. -/
theorem c10_unique_identity_witness :
    ((run ltNone openNone 10 1024 10 0
        [Ev.dgram addr1 ['x'] 3]).clients.map Client.addr).Nodup
    ∧ ((find_client 10 (run ltNone openNone 10 1024 10 0
          [Ev.dgram addr1 ['x'] 3]) addr1).2
        = run ltNone openNone 10 1024 10 0 [Ev.dgram addr1 ['x'] 3]
      ∧ (find_client 10 (run ltNone openNone 10 1024 10 0
          [Ev.dgram addr1 ['x'] 3]) addr1).1.isSome) := by
  have h := c10_unique_identity ltNone openNone 10 1024 10 0 10
    [Ev.dgram addr1 ['x'] 3] addr1
  exact ⟨h.1, h.2 (by decide)⟩

/-- C3 counterexample: when the date changes and the new file fails to
open, the previous handle is kept, but the date marker IS advanced
(`last_tm = *tm` runs before `switch_logfile`), contrary to the claim
that it is not advanced. -/
theorem c3_marker_advanced :
    (write_logfile ltJan31 openNone sysJan30 clientAbc false).1.last_tm
        ≠ sysJan30.last_tm
    ∧ (write_logfile ltJan31 openNone sysJan30 clientAbc false).1.last_tm
        = tmJan31
    ∧ (write_logfile ltJan31 openNone sysJan30 clientAbc false).1.log_fp
        = sysJan30.log_fp := by decide

/-- C3 amended: when a record's local date differs from the marker and
opening the date-named file fails, the previous handle remains the
active output and the marker IS advanced to the new date, so the
rotation attempt is repeated on the next record whose date crosses a
boundary (relative to the new marker) rather than on every subsequent
record: any later record on the same calendar date leaves the handle
and the marker untouched whatever the open oracle would return. -/
theorem c3_rotation_failure (lt : Nat → Option Tm)
    (o : List Char → Option Nat) (s : Sys) (c : Client) (forced : Bool)
    (hh : Nat) (tm : Tm)
    (hfp : s.log_fp = some hh)
    (hlt : lt c.stamp = some tm)
    (hne : s.last_time ≠ c.stamp)
    (hdate : tm.mday ≠ s.last_tm.mday ∨ tm.mon ≠ s.last_tm.mon ∨
             tm.year ≠ s.last_tm.year)
    (hopen : o (filename tm) = none) :
    (write_logfile lt o s c forced).1.log_fp = some hh
    ∧ (write_logfile lt o s c forced).1.last_tm = tm
    ∧ ∀ (o2 : List Char → Option Nat) (t2 : Nat) (tm2 : Tm),
        lt t2 = some tm2 → tm2.mday = tm.mday → tm2.mon = tm.mon →
        tm2.year = tm.year →
        (dateCheck lt o2 (write_logfile lt o s c forced).1 t2).log_fp
            = some hh
        ∧ (dateCheck lt o2 (write_logfile lt o s c forced).1 t2).last_tm
            = tm := by
  have h0 := dateCheck_rot_fail lt o s c.stamp tm hh hfp hlt hne hdate hopen
  rw [write_logfile_sys]
  refine ⟨h0.1, h0.2.1, ?_⟩
  intro o2 t2 tm2 hlt2 hd1 hd2 hd3
  have h2 := dateCheck_same_date lt o2 (dateCheck lt o s c.stamp) t2 tm2
    hlt2 (by rw [h0.2.1, hd1]) (by rw [h0.2.1, hd2]) (by rw [h0.2.1, hd3])
  exact ⟨h2.1.trans h0.1, h2.2.trans h0.2.1⟩

/-- Witness for C3 amended, at the concrete failed rotation. -/
theorem c3_rotation_failure_witness :
    (write_logfile ltJan31 openNone sysJan30 clientAbc false).1.log_fp
        = some 0
    ∧ (write_logfile ltJan31 openNone sysJan30 clientAbc false).1.last_tm
        = tmJan31
    ∧ ((dateCheck ltJan31 (fun _ => some 5)
          (write_logfile ltJan31 openNone sysJan30 clientAbc false).1
          9).log_fp = some 0
      ∧ (dateCheck ltJan31 (fun _ => some 5)
          (write_logfile ltJan31 openNone sysJan30 clientAbc false).1
          9).last_tm = tmJan31) := by
  have h := c3_rotation_failure ltJan31 openNone sysJan30 clientAbc false
    0 tmJan31 rfl rfl (by decide) (by decide) rfl
  exact ⟨h.1, h.2.1, h.2.2 (fun _ => some 5) 9 tmJan31 rfl rfl rfl rfl⟩

/-- C4 counterexample: after a burst-drain cycle in which a session's
lines all completed (its pending buffer is empty), the end-of-cycle
`drop_memory_usage` call is a no-op because the hint flag is unset, so
the empty session still occupies a registry slot. -/
theorem c4_empty_session_remains :
    (run ltNone openNone 10 1024 10 0
        [Ev.dgram addr1 ['x', '\n'] 5, Ev.reclaim]).clients.map
          (fun c => c.buffer) = [[]] := by decide

/-- C4 amended: the reclamation pass removes the empty-pending sessions
only when the hint flag (`try_drop_memory_usage`) is set — by a
rotation or a capacity encounter — in which case it removes exactly
those sessions; with the flag clear (the common end of a burst-drain
cycle) it changes nothing. -/
theorem c4_reclaim_behavior (s : Sys) :
    (∀ c ∈ (drop_memory_usage { s with try_drop := true }).clients,
      c.buffer ≠ [])
    ∧ (∀ c ∈ s.clients, c.buffer ≠ [] →
        c ∈ (drop_memory_usage { s with try_drop := true }).clients)
    ∧ (s.try_drop = false → drop_memory_usage s = s) := by
  refine ⟨?_, ?_, ?_⟩
  · intro c hc
    unfold drop_memory_usage at hc
    rw [if_pos rfl] at hc
    dsimp only at hc
    have := List.of_mem_filter hc
    simpa using this
  · intro c hc hne
    unfold drop_memory_usage
    rw [if_pos rfl]
    dsimp only
    exact List.mem_filter.mpr ⟨hc, by simpa using hne⟩
  · intro h
    unfold drop_memory_usage
    rw [if_neg (by simp [h])]

/-- Witness for C4 amended: the non-empty session survives a hinted
pass, and an unhinted pass changes nothing. -/
theorem c4_reclaim_behavior_witness :
    cPending ∈ (drop_memory_usage
        { sysPair with try_drop := true }).clients
    ∧ drop_memory_usage sysPair = sysPair :=
  ⟨(c4_reclaim_behavior sysPair).2.1 cPending (by decide) (by decide),
   (c4_reclaim_behavior sysPair).2.2 rfl⟩

/-- C5 counterexample: with the minimum legal `wbuf_size = 1024` and
1023 pending bytes, a two-byte datagram `\ny` pushes the appended
buffer to 1025 ≥ 1024, yet no forced flush happens, because the
oversized check runs only after line extraction reduced the buffer to
the single byte `y`; the pending buffer ends non-empty, contradicting
the claim that it becomes empty. -/
theorem c5_no_forced_flush :
    (clientLong.buffer ++ ['\n', 'y']).length ≥ 1024
    ∧ (handleData ltNone openNone 1024 sysJan30 clientLong ['\n', 'y']
        6).2.1.buffer = ['y']
    ∧ (handleData ltNone openNone 1024 sysJan30 clientLong ['\n', 'y']
        6).2.1.buffer ≠ [] := by
  have hb : clientLong.buffer.count '\n' = 0 := by
    unfold clientLong
    dsimp only
    rw [List.count_replicate]
    simp
  have hext : extractLines (clientLong.buffer ++ '\n' :: ['y'])
      = ([clientLong.buffer ++ ['\n']], ['y']) :=
    extractLines_single _ _ hb (by decide)
  have hafter : afterLineExtraction clientLong.buffer ['\n', 'y'] = ['y'] := by
    unfold afterLineExtraction
    rw [if_pos (by decide)]
    rw [show clientLong.buffer ++ ['\n', 'y']
        = clientLong.buffer ++ '\n' :: ['y'] from rfl, hext]
  have hmain := handleData_not_forced ltNone openNone 1024 sysJan30
    clientLong ['\n', 'y'] 6 (by rw [hafter]; decide)
  refine ⟨?_, ?_, ?_⟩
  · unfold clientLong
    dsimp only
    rw [List.length_append, List.length_replicate]
    decide
  · rw [hmain, hafter]
  · rw [hmain, hafter]
    decide

/-- C5 amended: when the pending buffer, after the datagram is
appended and any complete lines extracted, still reaches or exceeds
`wbuf_size`, the session is force-flushed within that datagram's
processing: the pending buffer becomes empty and the last record
written carries the remaining bytes with a newline appended. -/
theorem c5_forced_flush (lt : Nat → Option Tm)
    (o : List Char → Option Nat) (wbuf : Nat) (s : Sys) (c : Client)
    (data : List Char) (now : Nat)
    (h : (afterLineExtraction c.buffer data).length ≥ wbuf) :
    (handleData lt o wbuf s c data now).2.1.buffer = []
    ∧ ((extractLines (afterLineExtraction c.buffer data)).2 ≠ [] →
        ((handleData lt o wbuf s c data now).2.2).getLast?.map Rec.payload
          = some ((extractLines (afterLineExtraction c.buffer data)).2
              ++ ['\n'])) := by
  have hc1 : (if c.buffer = [] then { c with stamp := now } else c).buffer
      = c.buffer := by split <;> rfl
  unfold handleData
  dsimp only
  generalize h1 : (if data.contains '\n'
      then write_logfile lt o s
        { (if c.buffer = [] then { c with stamp := now } else c) with
          buffer := (if c.buffer = [] then { c with stamp := now } else c).buffer
            ++ data } false
      else (s, { (if c.buffer = [] then { c with stamp := now } else c) with
          buffer := (if c.buffer = [] then { c with stamp := now } else c).buffer
            ++ data }, [])) = r1
  have hbuf : r1.2.1.buffer = afterLineExtraction c.buffer data := by
    rw [← h1]
    unfold afterLineExtraction
    by_cases hc : data.contains '\n'
    · rw [if_pos hc, if_pos hc]
      rw [write_logfile_buffer, writeRecs_not_forced]
      dsimp only
      rw [hc1]
    · rw [if_neg hc, if_neg hc]
      dsimp only
      rw [hc1]
  have hforce : r1.2.1.buffer.length ≥ wbuf := by rw [hbuf]; exact h
  rw [if_pos hforce]
  constructor
  · rw [write_logfile_buffer, writeRecs_forced_buffer]
  · intro hrest
    rw [write_logfile_recs]
    have hlast := writeRecs_forced_getLast
      ((dateCheck lt o r1.1 r1.2.1.stamp).stamp) (r1.2.1.addr_str)
      (afterLineExtraction c.buffer data) hrest
    rw [show r1.2.1.buffer = afterLineExtraction c.buffer data from hbuf]
    rw [List.getLast?_append_of_ne_nil _ ?hne]
    case hne =>
      intro hnil
      rw [hnil] at hlast
      simp at hlast
    rw [hlast]
    rfl

/-- Witness for C5 amended: one pending byte plus a two-byte chunk
with no newline against `wbuf_size = 2`. -/
theorem c5_forced_flush_witness :
    (handleData ltNone openNone 2 sysJan30 cPending ['a', 'b']
        6).2.1.buffer = []
    ∧ ((handleData ltNone openNone 2 sysJan30 cPending ['a', 'b']
        6).2.2).getLast?.map Rec.payload
      = some ((extractLines
          (afterLineExtraction cPending.buffer ['a', 'b'])).2 ++ ['\n']) := by
  have h := c5_forced_flush ltNone openNone 2 sysJan30 cPending ['a', 'b'] 6
    (by decide)
  exact ⟨h.1, h.2 (by decide)⟩

/-- C8: every record `write_logfile` emits renders as a formatted
timestamp string, then the sender's `ip:port ` prefix, then the
payload, whose bytes contain exactly one newline, at the very end — a
complete line keeps its own terminator, a forced partial flush gets
one appended (the single spaces are the trailing characters of the
stamp and prefix strings). -/
theorem c8_record_format (lt : Nat → Option Tm)
    (o : List Char → Option Nat) (s : Sys) (c : Client) (forced : Bool)
    (hs : ∃ tm0, s.stamp = fmtStamp tm0)
    (hc : c.addr_str = fmtAddr c.addr) :
    ∀ r ∈ (write_logfile lt o s c forced).2.2,
      (∃ tm, r.stamp = fmtStamp tm)
      ∧ r.addr_str = fmtAddr c.addr
      ∧ r.render = r.stamp ++ r.addr_str ++ r.payload
      ∧ r.payload ≠ [] ∧ r.payload.getLast? = some '\n'
      ∧ r.payload.count '\n' = 1 := by
  intro r hr
  rw [write_logfile_recs] at hr
  have hprops := writeRecs_rec_mem _ _ c.buffer forced r hr
  have hstamp := dateCheck_stamp_shape lt o s c.stamp hs
  refine ⟨?_, ?_, rfl, hprops.2.2.1, hprops.2.2.2.1, hprops.2.2.2.2⟩
  · rw [hprops.1]
    exact hstamp
  · rw [hprops.2.1]
    exact hc

/-- Witness for C8: the record emitted for the line `hi\n` under a
consistent stamp cache. -/
theorem c8_record_format_witness :
    (∃ tm, recHi.stamp = fmtStamp tm)
    ∧ recHi.addr_str = fmtAddr clientNl.addr
    ∧ recHi.render = recHi.stamp ++ recHi.addr_str ++ recHi.payload
    ∧ recHi.payload ≠ [] ∧ recHi.payload.getLast? = some '\n'
    ∧ recHi.payload.count '\n' = 1 :=
  c8_record_format ltJan31 openNone sysStamped clientNl false
    ⟨tmJan31, rfl⟩ rfl recHi (by decide)

end Udplogger
